import Mathlib

/-!
Verification of the time-series alignment core of the pytcgplayer repository.

The development shallowly embeds the relevant Python code:
* app/common/time_series_aligner.py (TimeSeriesAligner)
* app/chart/index_aggregator.py (FilterValidator, IndexAggregator)
* app/common/coverage_analyzer.py (CoverageAnalyzer metric extraction)

Modelling conventions:
* a pandas DataFrame of observation records is a List Row;
* pandas Timestamps (day resolution) are Int day numbers, and timedelta
  arithmetic on them is Int subtraction;
* Python floats are embedded as rationals (all prices in the claims are
  dyadic, where float arithmetic is exact);
* the wall-clock timestamp pd.Timestamp.now() is an explicit parameter now;
* Python set iteration (over missing signatures) is determinized to the
  groupby key order; claims proved here do not depend on that order;
* pandas sort_values is embedded as insertionSort on the sort key
  (sort_values with kind=quicksort does not promise a tie order).
-/

/-- Signature composite key: (set, type, period, name), as grouped by
groupby(['set', 'type', 'period', 'name']). -/
abbrev Sig := String × String × String × String

/-- One observation record (a row of output.csv after read_csv conversion). -/
structure Row where
  set : String
  type : String
  period : String
  name : String
  period_start_date : Int
  period_end_date : Int
  holofoil_price : ℚ
  volume : Int
  timestamp : String
deriving DecidableEq

/-- Signature of a row, as used by groupby(['set','type','period','name']). -/
def sigOf (r : Row) : Sig := (r.set, r.type, r.period, r.name)

/-- Distinct signatures of a DataFrame (groupby keys; order determinized to
first occurrence, used as a set / for its count in the source). -/
def sigList (df : List Row) : List Sig := (df.map sigOf).dedup

/-- Number of records of df carrying period_end_date d.  In step 1 the source
appends one signature entry to date_coverage[date] per record, so
len(date_coverage[date]) is exactly this count. -/
def countRowsAt (df : List Row) (d : Int) : Nat :=
  (df.filter (fun r => decide (r.period_end_date = d))).length

/-- Sorted distinct period_end_date values of df
(sorted(df['period_end_date'].unique())). -/
def dateList (df : List Row) : List Int :=
  ((df.map Row.period_end_date).dedup).insertionSort (· ≤ ·)

/-- Fallback scan of _1_find_first_complete_coverage_date: keep the first date
whose record count strictly exceeds the best seen so far. -/
def bestCoverageFold (df : List Row) : List Int → Option Int × Nat → Option Int × Nat
  | [], acc => acc
  | d :: ds, (bd, bc) =>
    if bc < countRowsAt df d then bestCoverageFold df ds (some d, countRowsAt df d)
    else bestCoverageFold df ds (bd, bc)

/-- Embedding of TimeSeriesAligner._1_find_first_complete_coverage_date.
Returns (optimal date, coverage percentage). -/
def find_first_complete_coverage_date (df : List Row) (allow_fallback : Bool) :
    Option Int × ℚ :=
  if df = [] then (none, 0)
  else if sigList df = [] then (none, 0)
  else
    match (dateList df).find?
        (fun d => decide (countRowsAt df d = (sigList df).length)) with
    | some d => (some d, 100)
    | none =>
      if allow_fallback then
        match bestCoverageFold df (dateList df) (none, 0) with
        | (some bd, bc) => (some bd, ((bc : ℚ) / (((sigList df).length : ℚ))) * 100)
        | (none, _) => (none, 0)
      else (none, 0)

/-- Embedding of the gap-fill record synthesis in
_2_fill_signature_gaps_after_first_complete_date, lines 169-181, preserving
the source's order of operations: period_end_date is overwritten to the gap
date first, then days_diff is computed from the ALREADY overwritten end date,
then period_start_date := gap date - days_diff. -/
def gapFillRecord (now : String) (d : Int) (r : Row) : Row :=
  let newEnd := d
  let daysDiff := newEnd - r.period_start_date
  { r with period_end_date := newEnd, period_start_date := newEnd - daysDiff,
           timestamp := now }

/-- Last record of df carrying date d and signature s (pandas iteration keeps
the last row when several match; at most one matches under the uniqueness
precondition). -/
def lastRowAt (df : List Row) (d : Int) (s : Sig) : Option Row :=
  (df.filter (fun r => decide (r.period_end_date = d ∧ sigOf r = s))).getLast?

/-- Update of signature_latest_record with the records of date d. -/
def updateLatest (df : List Row) (d : Int) (latest : Sig → Option Row) :
    Sig → Option Row :=
  fun s => match lastRowAt df d s with
    | some r => some r
    | none => latest s

/-- Does signature s have a record on date d (membership in
current_coverage[d])? -/
def presentAt (df : List Row) (d : Int) (s : Sig) : Bool :=
  df.any (fun r => decide (r.period_end_date = d ∧ sigOf r = s))

/-- Main loop of step 2: walk the target dates (after the first), synthesize a
gap-fill record for every missing signature that has a latest record, then
absorb the real records of the date into signature_latest_record. -/
def fillLoop (df : List Row) (sigs : List Sig) (now : String) :
    List Int → (Sig → Option Row) → List Row
  | [], _ => []
  | d :: ds, latest =>
    let missing := sigs.filter (fun s => ! presentAt df d s)
    let news := missing.filterMap (fun s => (latest s).map (gapFillRecord now d))
    news ++ fillLoop df sigs now ds (updateLatest df d latest)

/-- The gap-fill records produced by step 2 for df and a start date. -/
def gapFillsOf (now : String) (df : List Row) (start : Int) : List Row :=
  fillLoop df (sigList df) now
    (((dateList df).filter (fun d => decide (start ≤ d))).drop 1)
    (updateLatest df start (fun _ => none))

/-- Lexicographic comparison of character lists by code point (the order of
Python string comparison, hence of pandas sorting on string columns). -/
def charListLe : List Char → List Char → Bool
  | [], _ => true
  | _ :: _, [] => false
  | a :: as, b :: bs => if a = b then charListLe as bs else decide (a < b)

/-- Code-point lexicographic order on strings. -/
def strLe (a b : String) : Bool := charListLe a.toList b.toList

/-- Sort key comparison of the final sort_values(['period_end_date', 'set',
'name']): lexicographic on (period_end_date, set, name). -/
def rowKeyLeB (a b : Row) : Bool :=
  if a.period_end_date = b.period_end_date then
    if a.set = b.set then strLe a.name b.name
    else strLe a.set b.set
  else decide (a.period_end_date < b.period_end_date)

/-- Propositional form of the row sort key order. -/
def rowKeyLe (a b : Row) : Prop := rowKeyLeB a b = true

instance : DecidableRel rowKeyLe :=
  fun a b => inferInstanceAs (Decidable (rowKeyLeB a b = true))

theorem charListLe_total (a b : List Char) :
    charListLe a b = true ∨ charListLe b a = true := by
  induction a generalizing b with
  | nil => exact Or.inl rfl
  | cons x xs ih =>
    cases b with
    | nil => exact Or.inr rfl
    | cons y ys =>
      by_cases hxy : x = y
      · subst hxy
        simpa [charListLe] using ih ys
      · rcases lt_trichotomy x y with h | h | h
        · exact Or.inl (by simp [charListLe, hxy, h])
        · exact absurd h hxy
        · exact Or.inr (by simp [charListLe, Ne.symm hxy, h])

theorem charListLe_trans (a b c : List Char) (h1 : charListLe a b = true)
    (h2 : charListLe b c = true) : charListLe a c = true := by
  induction a generalizing b c with
  | nil => rfl
  | cons x xs ih =>
    cases b with
    | nil => simp [charListLe] at h1
    | cons y ys =>
      cases c with
      | nil => simp [charListLe] at h2
      | cons z zs =>
        by_cases hxy : x = y <;> by_cases hyz : y = z
        · subst hxy; subst hyz
          simp only [charListLe, if_pos rfl] at h1 h2 ⊢
          exact ih ys zs h1 h2
        · subst hxy
          simp only [charListLe, if_pos rfl, if_neg hyz, decide_eq_true_eq] at h2 ⊢
          exact h2
        · subst hyz
          simp only [charListLe, if_neg hxy, decide_eq_true_eq] at h1
          simp only [charListLe, if_neg hxy, decide_eq_true_eq]
          exact h1
        · simp only [charListLe, if_neg hxy, decide_eq_true_eq] at h1
          simp only [charListLe, if_neg hyz, decide_eq_true_eq] at h2
          have hxz : x < z := lt_trans h1 h2
          simp [charListLe, ne_of_lt hxz, hxz]

theorem charListLe_antisymm (a b : List Char) (h1 : charListLe a b = true)
    (h2 : charListLe b a = true) : a = b := by
  induction a generalizing b with
  | nil =>
    cases b with
    | nil => rfl
    | cons y ys => exact Bool.noConfusion h2
  | cons x xs ih =>
    cases b with
    | nil => simp [charListLe] at h1
    | cons y ys =>
      by_cases hxy : x = y
      · subst hxy
        simp only [charListLe, if_pos rfl] at h1 h2
        rw [ih ys h1 h2]
      · simp only [charListLe, if_neg hxy, decide_eq_true_eq] at h1
        simp only [charListLe, if_neg (Ne.symm hxy), decide_eq_true_eq] at h2
        exact absurd h2 (lt_asymm h1)

theorem strLe_antisymm (a b : String) (h1 : strLe a b = true)
    (h2 : strLe b a = true) : a = b := by
  have h := charListLe_antisymm _ _ h1 h2
  cases a; cases b
  exact congrArg String.mk h

instance : IsTotal Row rowKeyLe := by
  refine ⟨fun a b => ?_⟩
  unfold rowKeyLe rowKeyLeB
  by_cases hd : a.period_end_date = b.period_end_date
  · by_cases hs : a.set = b.set
    · simpa [hd, hs, strLe] using charListLe_total a.name.toList b.name.toList
    · simpa [hd, hs, Ne.symm hs, strLe] using charListLe_total a.set.toList b.set.toList
  · rcases lt_trichotomy a.period_end_date b.period_end_date with h | h | h
    · simp [hd, h]
    · exact absurd h hd
    · simp [hd, Ne.symm hd, h]

instance : IsTrans Row rowKeyLe := by
  refine ⟨fun a b c h1 h2 => ?_⟩
  unfold rowKeyLe rowKeyLeB at h1 h2 ⊢
  by_cases hab : a.period_end_date = b.period_end_date <;>
    by_cases hbc : b.period_end_date = c.period_end_date
  · have hac : a.period_end_date = c.period_end_date := hab.trans hbc
    simp only [if_pos hab] at h1
    simp only [if_pos hbc] at h2
    simp only [if_pos hac]
    by_cases hsab : a.set = b.set <;> by_cases hsbc : b.set = c.set
    · have hsac : a.set = c.set := hsab.trans hsbc
      simp only [if_pos hsab] at h1
      simp only [if_pos hsbc] at h2
      simp only [if_pos hsac, strLe] at h1 h2 ⊢
      exact charListLe_trans _ _ _ h1 h2
    · simp only [if_pos hsab] at h1
      simp only [if_neg hsbc] at h2
      have hsac : a.set ≠ c.set := hsab ▸ hsbc
      simp only [if_neg hsac]
      exact hsab ▸ h2
    · simp only [if_neg hsab] at h1
      simp only [if_pos hsbc] at h2
      have hsac : a.set ≠ c.set := fun h => hsab (h.trans hsbc.symm)
      simp only [if_neg hsac]
      exact hsbc ▸ h1
    · simp only [if_neg hsab] at h1
      simp only [if_neg hsbc] at h2
      by_cases hsac : a.set = c.set
      · exact absurd (strLe_antisymm _ _ h2 (hsac ▸ h1)) hsbc
      · simp only [if_neg hsac, strLe] at h1 h2 ⊢
        exact charListLe_trans _ _ _ h1 h2
  · simp only [if_pos hab] at h1
    simp only [if_neg hbc, decide_eq_true_eq] at h2
    have hac : a.period_end_date ≠ c.period_end_date := hab ▸ hbc
    simp only [if_neg hac, decide_eq_true_eq]
    exact hab ▸ h2
  · simp only [if_neg hab, decide_eq_true_eq] at h1
    simp only [if_pos hbc] at h2
    have hac : a.period_end_date ≠ c.period_end_date := fun h => hab (h.trans hbc.symm)
    simp only [if_neg hac, decide_eq_true_eq]
    exact hbc ▸ h1
  · simp only [if_neg hab, decide_eq_true_eq] at h1
    simp only [if_neg hbc, decide_eq_true_eq] at h2
    have hlt : a.period_end_date < c.period_end_date := lt_trans h1 h2
    simp only [if_neg (ne_of_lt hlt), decide_eq_true_eq]
    exact hlt

/-- Embedding of TimeSeriesAligner._2_fill_signature_gaps_after_first_complete_date.
When no gap is filled the source returns the records from the start date
forward unsorted; otherwise it concatenates them with the synthesized records
and sorts by (period_end_date, set, name). -/
def fill_signature_gaps (now : String) (df : List Row) (start : Int) : List Row :=
  if df = [] then df
  else if gapFillsOf now df start = [] then
    df.filter (fun r => decide (start ≤ r.period_end_date))
  else
    ((df.filter (fun r => decide (start ≤ r.period_end_date))) ++
      gapFillsOf now df start).insertionSort rowKeyLe

/-- Embedding of TimeSeriesAligner.align_complete: step 1, restrict to the
start date forward, step 2.  When step 1 finds no date the result is empty. -/
def align_complete (now : String) (df : List Row) (allow_fallback : Bool) : List Row :=
  if df = [] then []
  else
    match (find_first_complete_coverage_date df allow_fallback).1 with
    | some d =>
      fill_signature_gaps now (df.filter (fun r => decide (d ≤ r.period_end_date))) d
    | none => []

/-- Uniqueness precondition of the data model: no signature has two records
with the same period_end_date. -/
def UniqueSigDates (df : List Row) : Prop :=
  (df.map (fun r => (sigOf r, r.period_end_date))).Nodup

instance (df : List Row) : Decidable (UniqueSigDates df) := by
  unfold UniqueSigDates; infer_instance

/-- All signatures of df have a record on date d (100% signature coverage). -/
def allSigsPresentAt (df : List Row) (d : Int) : Prop :=
  ∀ s ∈ sigList df, presentAt df d s = true

instance (df : List Row) (d : Int) : Decidable (allSigsPresentAt df d) := by
  unfold allSigsPresentAt; infer_instance

/-- Known set codes (FilterValidator.VALID_SETS), in source order. -/
def VALID_SETS : List String :=
  ["SV01", "SV02", "SV03", "SV03.5", "SV04", "SV04.5", "SV05", "SV06", "SV06.5",
   "SV07", "SV08", "SV08.5", "SV09", "SV10", "SWSH06", "SWSH07", "SWSH07.5",
   "SWSH08", "SWSH09", "SWSH10", "SWSH11", "SWSH12", "SWSH12.5"]

/-- Known type values (FilterValidator.VALID_TYPES). -/
def VALID_TYPES : List String := ["Card", "Booster Box", "Elite Trainer Box"]

/-- Known period values (FilterValidator.VALID_PERIODS). -/
def VALID_PERIODS : List String := ["3M"]

/-- Membership of a character in the body of a shell glob character class,
with a-b ranges by code point (fnmatch / re character class semantics). -/
def charInClass : List Char → Char → Bool
  | a :: '-' :: b :: rest, c =>
    (a ≤ c && c ≤ b) || charInClass rest c
  | a :: rest, c => (a = c) || charInClass rest c
  | [], _ => false

/-- Scan for the closing bracket of a glob character class; returns the class
body and the remainder of the pattern, or none when the bracket is unmatched
(fnmatch then treats the opening bracket as a literal). -/
def scanClass (acc : List Char) : List Char → Option (List Char × List Char)
  | [] => none
  | ']' :: rest => some (acc.reverse, rest)
  | c :: rest => scanClass (c :: acc) rest

/-- Parse of the pattern just after an opening bracket: optional leading
negation, then a class body in which a leading closing bracket is literal. -/
def parseClass (p : List Char) : Option (Bool × List Char × List Char) :=
  match p with
  | '!' :: ']' :: rest => (scanClass [']'] rest).map (fun x => (true, x.1, x.2))
  | '!' :: rest => (scanClass [] rest).map (fun x => (true, x.1, x.2))
  | ']' :: rest => (scanClass [']'] rest).map (fun x => (false, x.1, x.2))
  | rest => (scanClass [] rest).map (fun x => (false, x.1, x.2))

/-- Fuel-indexed shell glob matcher (semantics of fnmatch.fnmatchcase):
star matches any run, question mark one character, bracket a character class.
Every step consumes fuel and at least one pattern or subject character, so
the fuel p.length + s.length + 1 used by globMatch never runs out. -/
def globMatchAux : Nat → List Char → List Char → Bool
  | 0, _, _ => false
  | fuel + 1, p, s =>
    match p, s with
    | [], [] => true
    | [], _ :: _ => false
    | '*' :: ps, [] => globMatchAux fuel ps []
    | '*' :: ps, c :: s1 =>
      globMatchAux fuel ps (c :: s1) || globMatchAux fuel ('*' :: ps) s1
    | '?' :: _, [] => false
    | '?' :: ps, _ :: s1 => globMatchAux fuel ps s1
    | '[' :: pbody, s0 =>
      match parseClass pbody, s0 with
      | some (neg, cls, rest), c :: s1 =>
        (charInClass cls c != neg) && globMatchAux fuel rest s1
      | some _, [] => false
      | none, c :: s1 => ('[' = c) && globMatchAux fuel pbody s1
      | none, [] => false
    | ch :: ps, c :: s1 => (ch = c) && globMatchAux fuel ps s1
    | _ :: _, [] => false

/-- Case-sensitive shell glob match of a whole string against a pattern. -/
def globMatch (p s : List Char) : Bool :=
  globMatchAux (p.length + s.length + 1) p s

/-- Split a character list on commas (Python str.split(',')): the empty
string yields one empty token, separators are never dropped. -/
def splitOnComma : List Char → List (List Char)
  | [] => [[]]
  | ',' :: rest => [] :: splitOnComma rest
  | c :: rest =>
    match splitOnComma rest with
    | t :: ts => (c :: t) :: ts
    | [] => [[c]]

/-- Whitespace trim at both ends (Python str.strip()). -/
def trimChars (cs : List Char) : List Char :=
  ((cs.dropWhile Char.isWhitespace).reverse.dropWhile Char.isWhitespace).reverse

/-- Expansion of one comma-separated token of a filter pattern: a token
containing an asterisk is glob-matched against the vocabulary
(fnmatch.filter), any other token is kept literally when it is in the
vocabulary and silently dropped otherwise ({p.strip()} & valid_values). -/
def expandToken (valid : List String) (tok : List Char) : List String :=
  if (trimChars tok).contains '*' then
    valid.filter (fun v => globMatch (trimChars tok) v.toList)
  else if valid.contains (String.mk (trimChars tok)) then [String.mk (trimChars tok)]
  else []

/-- Embedding of FilterValidator._expand_pattern.  The Python set union of
the per-token results is determinized as concatenation plus dedup. -/
def expand_pattern (pattern : String) (valid : List String) : List String :=
  if pattern = "*" then valid
  else (((splitOnComma pattern.toList).map (expandToken valid)).flatten).dedup

/-- Embedding of FilterValidator.validate_period. -/
def validate_period (p : String) : Bool := VALID_PERIODS.contains p

/-- Embedding of IndexAggregator.apply_filters: expand both patterns, default
an invalid period to 3M, and keep the rows matching all three filters. -/
def apply_filters (df : List Row) (sets types period : String) : List Row :=
  let validSets := expand_pattern sets VALID_SETS
  let validTypes := expand_pattern types VALID_TYPES
  let period1 := if validate_period period then period else "3M"
  df.filter (fun r =>
    validSets.contains r.set && validTypes.contains r.type &&
      decide (r.period = period1))

/-- Embedding of IndexAggregator.create_subset after the CSV has been read:
filter, then completeness-only alignment (the read_csv I/O boundary is out of
scope; df stands for the DataFrame it produced). -/
def create_subset (now : String) (df : List Row) (sets types period : String)
    (allow_fallback : Bool) : List Row :=
  if df = [] then []
  else if apply_filters df sets types period = [] then []
  else align_complete now (apply_filters df sets types period) allow_fallback

/-- Output table of IndexAggregator.aggregate_time_series: its column list
and its rows (optional name value, period_end_date, aggregate_price,
aggregate_value). -/
structure AggResult where
  columns : List String
  rows : List (Option String × Int × ℚ × ℚ)
deriving DecidableEq

/-- Sum of holofoil_price over the records of date d. -/
def sumPriceAt (df : List Row) (d : Int) : ℚ :=
  ((df.filter (fun r => decide (r.period_end_date = d))).map Row.holofoil_price).sum

/-- Sum of holofoil_price * volume over the records of date d. -/
def sumValueAt (df : List Row) (d : Int) : ℚ :=
  ((df.filter (fun r => decide (r.period_end_date = d))).map
    (fun r => r.holofoil_price * (r.volume : ℚ))).sum

/-- Truthiness of the optional name argument (Python: if name), which is
false for None and for the empty string. -/
def nameTruthy : Option String → Bool
  | none => false
  | some s => decide (s ≠ "")

/-- Embedding of IndexAggregator.aggregate_time_series: an empty input yields
the three fixed columns and no rows; otherwise one row per distinct date in
ascending order with the two sums, with a name column prepended only when the
name is truthy. -/
def aggregate_time_series (df : List Row) (name : Option String) : AggResult :=
  if df = [] then ⟨["period_end_date", "aggregate_price", "aggregate_value"], []⟩
  else
    ⟨(if nameTruthy name then ["name"] else []) ++
        ["period_end_date", "aggregate_price", "aggregate_value"],
      (dateList df).map (fun d =>
        ((if nameTruthy name then name else none), d, sumPriceAt df d, sumValueAt df d))⟩

/-- Three-field string signature used by CoverageAnalyzer._get_signature_set
(f-string set_name_type, without the period field). -/
def sigStr (r : Row) : String := r.set ++ "_" ++ r.name ++ "_" ++ r.type

/-- Distinct string signatures of a DataFrame (a Python set, determinized to
first-occurrence order; only its size and membership are used). -/
def signatureSet (df : List Row) : List String := (df.map sigStr).dedup

/-- The fields of CoverageResult that _extract_alignment_metrics derives from
the aligner run (records_before_start, missing_signatures and quality_score
are omitted; no claim mentions them). -/
structure AlignmentMetrics where
  coverage_percentage : ℚ
  signatures_found : Nat
  signatures_total : Nat
  optimal_start_date : Option Int
  records_aligned : Nat
  time_series_points : Nat
  gap_fills_required : Int
  fallback_required : Bool
deriving DecidableEq

/-- Zero metrics (CoverageResultFactory.create_empty and the empty-alignment
branch with signatures_total overridden by the caller). -/
def emptyMetrics (total : Nat) : AlignmentMetrics :=
  ⟨0, 0, total, none, 0, 0, 0, false⟩

/-- Coverage fraction len(aligned_signatures)/len(original_signatures) with
the guard for no original signatures, as computed by
_extract_alignment_metrics. -/
def coveragePct (df aligned : List Row) : ℚ :=
  if (signatureSet df).length = 0 then 0
  else ((signatureSet aligned).length : ℚ) / ((signatureSet df).length : ℚ)

/-- Embedding of CoverageAnalyzer._extract_alignment_metrics: run the aligner
and derive the coverage statistics from the aligned result.  Note that
gap_fills_required is max(0, expected - len(aligned_df)) computed AFTER gap
filling. -/
def extract_alignment_metrics (now : String) (df : List Row)
    (allow_fallback : Bool) : AlignmentMetrics :=
  if align_complete now df allow_fallback = [] then
    emptyMetrics (signatureSet df).length
  else
    ⟨coveragePct df (align_complete now df allow_fallback),
     (signatureSet (align_complete now df allow_fallback)).length,
     (signatureSet df).length,
     ((align_complete now df allow_fallback).map Row.period_end_date).min?,
     (align_complete now df allow_fallback).length,
     (((align_complete now df allow_fallback).map Row.period_end_date).dedup).length,
     max 0
       (((signatureSet (align_complete now df allow_fallback)).length : Int) *
          ((((align_complete now df allow_fallback).map Row.period_end_date).dedup).length : Int) -
        ((align_complete now df allow_fallback).length : Int)),
     allow_fallback && decide (coveragePct df (align_complete now df allow_fallback) < 1)⟩

/-- Embedding of CoverageAnalyzer.analyze_filter_combination after the CSV
has been read (the dataset cache and read_csv I/O are out of scope): pattern
validation, filtering, then metric extraction. -/
def analyze_filter_combination (now : String) (df : List Row)
    (sets types period : String) (allow_fallback : Bool) : AlignmentMetrics :=
  if expand_pattern sets VALID_SETS = [] ∨ expand_pattern types VALID_TYPES = [] then
    emptyMetrics 0
  else if df = [] then emptyMetrics 0
  else if apply_filters df sets types period = [] then emptyMetrics 0
  else extract_alignment_metrics now (apply_filters df sets types period) allow_fallback

/-- Record count of the claim's reading of gap_fills_required: the number of
real input records from the optimal start date forward (the pre-fill count). -/
def prefillCount (df : List Row) : Option Int → Nat
  | some d => (df.filter (fun r => decide (d ≤ r.period_end_date))).length
  | none => 0

/-- Day number of 2025-01-03 (days since 1970-01-01). -/
def day20250103 : Int := 20091

/-- Day number of 2025-01-05. -/
def day20250105 : Int := 20093

/-- Day number of 2025-01-01. -/
def day20250101 : Int := 20089

/-- Row constructor helper for concrete test data. -/
def mkRow (s t p n : String) (sd ed : Int) (pr : ℚ) (v : Int) : Row :=
  ⟨s, t, p, n, sd, ed, pr, v, "2025-01-01 00:00:00"⟩

/-- Scenario A input: three signatures, all with a record at 2025-01-03, two
of which continue to 2025-01-05, and no other records. -/
def dfScenarioA : List Row :=
  [mkRow "SV01" "Card" "3M" "A" day20250101 day20250103 100 5,
   mkRow "SV01" "Card" "3M" "B" day20250101 day20250103 200 10,
   mkRow "SV01" "Card" "3M" "C" day20250101 day20250103 300 15,
   mkRow "SV01" "Card" "3M" "A" day20250103 day20250105 105 6,
   mkRow "SV01" "Card" "3M" "B" day20250103 day20250105 205 11]

/-- Two signatures with completely disjoint date sets (Scenario B shape). -/
def dfDisjoint : List Row :=
  [mkRow "SV01" "Card" "3M" "A" day20250101 day20250103 100 5,
   mkRow "SV01" "Card" "3M" "B" day20250103 day20250105 200 10]

/-- Signature A on dates 2025-01-03 and 2025-01-05, signature B only on
2025-01-03: alignment fills one gap (B at 2025-01-05). -/
def dfOneGap : List Row :=
  [mkRow "SV01" "Card" "3M" "A" day20250101 day20250103 100 5,
   mkRow "SV01" "Card" "3M" "B" day20250101 day20250103 200 10,
   mkRow "SV01" "Card" "3M" "A" day20250103 day20250105 105 6]

/-- Gap-fill span input: signature A has one record with a 3-day span
(start 0, end 3) and is missing on date 5; signature B covers both dates. -/
def dfSpan : List Row :=
  [mkRow "SV01" "Card" "3M" "A" 0 3 100 5,
   mkRow "SV01" "Card" "3M" "B" 0 3 200 10,
   mkRow "SV01" "Card" "3M" "B" 2 5 205 11]

/-- Complete two-signature two-date input listed out of sort order. -/
def dfUnsorted : List Row :=
  [mkRow "SV01" "Card" "3M" "A" day20250103 day20250105 105 6,
   mkRow "SV01" "Card" "3M" "B" day20250101 day20250103 200 10,
   mkRow "SV01" "Card" "3M" "A" day20250101 day20250103 100 5,
   mkRow "SV01" "Card" "3M" "B" day20250103 day20250105 205 11]

/-- Scenario C input: three same-date records with prices 100.50, 200.00,
150.75 and volumes 5, 10, 3. -/
def dfScenarioC : List Row :=
  [mkRow "SV01" "Card" "3M" "A" day20250101 day20250103 100.50 5,
   mkRow "SV01" "Card" "3M" "B" day20250101 day20250103 200.00 10,
   mkRow "SV01" "Card" "3M" "C" day20250101 day20250103 150.75 3]

/-- Claim C2 counterexample: on the Scenario A input (three signatures at
2025-01-03 of which two continue to 2025-01-05, five records in all),
create_subset without fallback does not return 4 records: the aligner keeps
all five original records from the start date and adds one gap-fill, so the
result has 6 records. -/
theorem c2_counterexample :
    (create_subset "now" dfScenarioA "*" "*" "3M" false).length ≠ 4 := by decide

/-- Claim C2 (amended): on the Scenario A input, create_subset with fallback
disabled returns exactly 6 records (the five originals plus one gap-fill for
the third signature), and the minimum period_end_date of the result is
2025-01-03. -/
theorem c2_scenarioA :
    (create_subset "now" dfScenarioA "*" "*" "3M" false).length = 6 ∧
    ((create_subset "now" dfScenarioA "*" "*" "3M" false).map
      Row.period_end_date).min? = some day20250103 := by decide

/-- Claim C6: evaluation of the aligner at dfSpan.  Signature A's only record
spans 3 days (start 0, end 3); it is missing on date 5, and the synthesized
record for it copies price 100 and volume 5, sets period_end_date to 5 and
the timestamp to now, but leaves period_start_date at 0, giving a 5-day
span instead of preserving the copied record's 3-day span: days_diff is
computed from the already overwritten end date, so the claimed (and
commented) span-preserving recomputation never happens. -/
theorem c6_gap_fill_span_eval :
    (align_complete "t" dfSpan false).filter
        (fun r => decide (r.name = "A" ∧ r.period_end_date = 5)) =
      [⟨"SV01", "Card", "3M", "A", 0, 5, 100, 5, "t"⟩] ∧
    ((5 : Int) - 0) ≠ ((3 : Int) - 0) := by decide

/-- Claim C8 counterexample: aggregating Scenario C's three records (prices
100.50, 200.00, 150.75, volumes 5, 10, 3) yields aggregate_value
100.50*5 + 200.00*10 + 150.75*3 = 2954.75, not the 3160.75 the claim
asserts. -/
theorem c8_counterexample :
    (aggregate_time_series dfScenarioC none).rows =
      [(none, day20250103, 451.25, 2954.75)] ∧
    (2954.75 : ℚ) ≠ 3160.75 := by
  constructor
  · have h : (aggregate_time_series dfScenarioC none).rows =
        [(none, day20250103, sumPriceAt dfScenarioC day20250103,
          sumValueAt dfScenarioC day20250103)] := rfl
    have hp : sumPriceAt dfScenarioC day20250103 =
        (100.50 : ℚ) + (200.00 + (150.75 + 0)) := rfl
    have hv : sumValueAt dfScenarioC day20250103 =
        (100.50 : ℚ) * ((5 : Int) : ℚ) +
          ((200.00 : ℚ) * ((10 : Int) : ℚ) + ((150.75 : ℚ) * ((3 : Int) : ℚ) + 0)) := rfl
    rw [h, hp, hv]
    norm_num
  · norm_num

/-- Claim C1 counterexample: with fallback enabled and two signatures with
disjoint date sets (a dataset satisfying the uniqueness precondition), the
aligner returns a non-empty dataset of 3 records while it contains 2 distinct
signatures and 2 distinct dates, so the rectangularity equation fails. -/
theorem c1_counterexample :
    UniqueSigDates dfDisjoint ∧
    align_complete "now" dfDisjoint true ≠ [] ∧
    (align_complete "now" dfDisjoint true).length ≠
      ((align_complete "now" dfDisjoint true).map sigOf).dedup.length *
        ((align_complete "now" dfDisjoint true).map Row.period_end_date).dedup.length := by
  decide

/-- Claim C3 counterexample: at dfOneGap (signature A on two dates, B on one)
the alignment is non-empty and the reported gap_fills_required is 0, because
the source subtracts the post-fill record count (4) from the theoretical
count (2 signatures x 2 dates = 4); the claim's pre-fill reading (records
from the optimal start date forward, 3 of them) would give 1. -/
theorem c3_counterexample :
    (analyze_filter_combination "now" dfOneGap "*" "*" "3M" false).records_aligned ≠ 0 ∧
    (analyze_filter_combination "now" dfOneGap "*" "*" "3M" false).gap_fills_required ≠
      max 0
        (((analyze_filter_combination "now" dfOneGap "*" "*" "3M" false).signatures_found : Int) *
          ((analyze_filter_combination "now" dfOneGap "*" "*" "3M" false).time_series_points : Int) -
          (prefillCount dfOneGap
            (analyze_filter_combination "now" dfOneGap "*" "*" "3M" false).optimal_start_date : Int)) := by
  decide

/-- Claim C7 counterexample: dfUnsorted has complete coverage on both of its
dates, so step 2 synthesizes nothing and returns the records from the start
date forward in their original (unsorted) order, violating the claimed
(period_end_date, set, name) ascending sortedness. -/
theorem c7_counterexample :
    ¬ List.Pairwise rowKeyLe (fill_signature_gaps "t" dfUnsorted day20250103) := by
  decide

/-- Claim C9 counterexample: the token SV0? contains the glob wildcard
character ?, and glob matching against the vocabulary would match SV01, yet
_expand_pattern returns the empty set because only an asterisk routes a token
to fnmatch; the question mark token is treated as a literal not in the
vocabulary. -/
theorem c9_counterexample :
    expand_pattern "SV0?" VALID_SETS = [] ∧
    globMatch "SV0?".toList "SV01".toList = true ∧
    "SV01" ∈ VALID_SETS := by decide

/-- Claim C10: aggregate_time_series on an empty DataFrame returns, for every
name argument, a zero-row table with exactly the three columns
period_end_date, aggregate_price, aggregate_value, while for non-empty input
with a non-empty name the name column is prepended. -/
theorem c10_aggregate_empty_input :
    (∀ name : Option String,
      aggregate_time_series [] name =
        ⟨["period_end_date", "aggregate_price", "aggregate_value"], []⟩) ∧
    (aggregate_time_series dfScenarioC (some "SV_Box")).columns =
      ["name", "period_end_date", "aggregate_price", "aggregate_value"] := by
  exact ⟨fun _ => rfl, by decide⟩

/-- Claim C9 (amended): the pattern "*" expands to the entire vocabulary; a
comma-separated pattern expands to the union of the per-token results; a
token containing an ASTERISK is expanded by case-sensitive shell-glob
matching against the vocabulary, while any other token (even one containing
the other glob wildcard characters ? or [) expands to the singleton of its
trimmed value when that value is in the vocabulary and to the empty set
otherwise, never raising; and "SV*" against the 23-value group vocabulary
yields exactly the 14 codes beginning with SV. -/
theorem c9_expand_pattern :
    (∀ valid : List String, expand_pattern "*" valid = valid) ∧
    (∀ (pattern : String) (valid : List String) (v : String), pattern ≠ "*" →
      (v ∈ expand_pattern pattern valid ↔
        ∃ tok ∈ splitOnComma pattern.toList, v ∈ expandToken valid tok)) ∧
    (∀ (valid : List String) (tok : List Char),
      ((trimChars tok).contains '*' = true →
        expandToken valid tok =
          valid.filter (fun v => globMatch (trimChars tok) v.toList)) ∧
      ((trimChars tok).contains '*' = false →
        expandToken valid tok =
          if valid.contains (String.mk (trimChars tok)) then
            [String.mk (trimChars tok)]
          else [])) ∧
    expand_pattern "SV*" VALID_SETS =
      ["SV01", "SV02", "SV03", "SV03.5", "SV04", "SV04.5", "SV05", "SV06",
       "SV06.5", "SV07", "SV08", "SV08.5", "SV09", "SV10"] := by
  refine ⟨fun valid => rfl, ?_, ?_, by decide⟩
  · intro pattern valid v hp
    unfold expand_pattern
    rw [if_neg hp]
    simp [List.mem_dedup, List.mem_flatten, List.mem_map]
  · intro valid tok
    constructor
    · intro h
      unfold expandToken
      rw [if_pos h]
    · intro h
      unfold expandToken
      rw [if_neg (by rw [h]; exact Bool.false_ne_true)]

/-- Witness for c9_expand_pattern: its union clause instantiated at the
pattern "SV01, SV02". -/
theorem c9_expand_pattern_witness :
    "SV02" ∈ expand_pattern "SV01, SV02" VALID_SETS ↔
      ∃ tok ∈ splitOnComma ("SV01, SV02".toList),
        "SV02" ∈ expandToken VALID_SETS tok :=
  c9_expand_pattern.2.1 "SV01, SV02" VALID_SETS "SV02" (by decide)

theorem find_first_of_sorted {p : Int → Bool} {l : List Int}
    (hs : List.Pairwise (fun a b => a ≤ b) l) {d : Int}
    (h : l.find? p = some d) :
    p d = true ∧ d ∈ l ∧ ∀ e ∈ l, e < d → p e = false := by
  induction l with
  | nil => simp [List.find?] at h
  | cons a t ih =>
    by_cases hpa : p a = true
    · rw [List.find?_cons_of_pos _ hpa] at h
      cases h
      refine ⟨hpa, List.mem_cons_self _ _, ?_⟩
      intro e he hlt
      rcases List.mem_cons.mp he with rfl | he
      · exact absurd hlt (lt_irrefl _)
      · exact absurd hlt (not_lt_of_le (List.rel_of_pairwise_cons hs he))
    · rw [List.find?_cons_of_neg _ (by simpa using hpa)] at h
      obtain ⟨hpd, hdt, hmin⟩ := ih hs.of_cons h
      refine ⟨hpd, List.mem_cons_of_mem _ hdt, ?_⟩
      intro e he hlt
      rcases List.mem_cons.mp he with rfl | he
      · simpa using hpa
      · exact hmin e he hlt

theorem find_some_of_exists {p : Int → Bool} {l : List Int}
    (h : ∃ d ∈ l, p d = true) : ∃ d, l.find? p = some d := by
  induction l with
  | nil => simp at h
  | cons a t ih =>
    by_cases hpa : p a = true
    · exact ⟨a, List.find?_cons_of_pos _ hpa⟩
    · obtain ⟨d, hd, hpd⟩ := h
      rcases List.mem_cons.mp hd with rfl | hd
      · exact absurd hpd hpa
      · obtain ⟨e, he⟩ := ih ⟨d, hd, hpd⟩
        exact ⟨e, by rw [List.find?_cons_of_neg _ (by simpa using hpa)]; exact he⟩

theorem bestFold_le (df : List Row) (ds : List Int) (bd : Option Int) (bc : Nat) :
    bc ≤ (bestCoverageFold df ds (bd, bc)).2 ∧
    ∀ d ∈ ds, countRowsAt df d ≤ (bestCoverageFold df ds (bd, bc)).2 := by
  induction ds generalizing bd bc with
  | nil => exact ⟨le_refl _, by simp⟩
  | cons d t ih =>
    by_cases h : bc < countRowsAt df d
    · rw [bestCoverageFold, if_pos h]
      obtain ⟨h1, h2⟩ := ih (some d) (countRowsAt df d)
      refine ⟨le_of_lt (lt_of_lt_of_le h h1), ?_⟩
      intro e he
      rcases List.mem_cons.mp he with rfl | he
      · exact h1
      · exact h2 e he
    · rw [bestCoverageFold, if_neg h]
      obtain ⟨h1, h2⟩ := ih bd bc
      refine ⟨h1, ?_⟩
      intro e he
      rcases List.mem_cons.mp he with rfl | he
      · exact le_trans (le_of_not_lt h) h1
      · exact h2 e he

theorem bestFold_cases (df : List Row) (ds : List Int) (bd : Option Int) (bc : Nat) :
    bestCoverageFold df ds (bd, bc) = (bd, bc) ∨
    ∃ b ∈ ds, bestCoverageFold df ds (bd, bc) = (some b, countRowsAt df b) ∧
      bc < countRowsAt df b := by
  induction ds generalizing bd bc with
  | nil => exact Or.inl rfl
  | cons d t ih =>
    by_cases h : bc < countRowsAt df d
    · rw [bestCoverageFold, if_pos h]
      rcases ih (some d) (countRowsAt df d) with heq | ⟨b, hb, heq, hlt⟩
      · exact Or.inr ⟨d, List.mem_cons_self _ _, heq, h⟩
      · exact Or.inr ⟨b, List.mem_cons_of_mem _ hb, heq, lt_trans h hlt⟩
    · rw [bestCoverageFold, if_neg h]
      rcases ih bd bc with heq | ⟨b, hb, heq, hlt⟩
      · exact Or.inl heq
      · exact Or.inr ⟨b, List.mem_cons_of_mem _ hb, heq, hlt⟩

theorem bestFold_first (df : List Row) (ds : List Int) (bd : Option Int) (bc : Nat)
    (hs : List.Pairwise (fun a b => a ≤ b) ds) :
    ∀ d ∈ ds, countRowsAt df d = (bestCoverageFold df ds (bd, bc)).2 →
      bc < countRowsAt df d →
      ∃ b, (bestCoverageFold df ds (bd, bc)).1 = some b ∧ b ≤ d := by
  induction ds generalizing bd bc with
  | nil => intro d hd; simp at hd
  | cons a t ih =>
    intro d hd heq hbc
    by_cases h : bc < countRowsAt df a
    · rw [bestCoverageFold, if_pos h] at heq ⊢
      rcases List.mem_cons.mp hd with rfl | hdt
      · rcases bestFold_cases df t (some d) (countRowsAt df d) with hc | ⟨b, hb, hc, hlt⟩
        · exact ⟨d, by rw [hc], le_refl d⟩
        · rw [hc] at heq
          exact absurd (heq ▸ hlt) (lt_irrefl _)
      · by_cases hda : countRowsAt df a < countRowsAt df d
        · exact ih (some a) (countRowsAt df a) hs.of_cons d hdt heq hda
        · have h1 := (bestFold_le df t (some a) (countRowsAt df a)).1
          have h2 : countRowsAt df d ≤ countRowsAt df a := le_of_not_lt hda
          have h3 : (bestCoverageFold df t (some a, countRowsAt df a)).2 =
              countRowsAt df a := le_antisymm (heq ▸ h2) h1
          rcases bestFold_cases df t (some a) (countRowsAt df a) with hc | ⟨b, hb, hc, hlt⟩
          · exact ⟨a, by rw [hc], List.rel_of_pairwise_cons hs hdt⟩
          · rw [hc] at h3
            exact absurd (h3 ▸ hlt) (lt_irrefl _)
    · rw [bestCoverageFold, if_neg h] at heq ⊢
      rcases List.mem_cons.mp hd with rfl | hdt
      · exact absurd hbc h
      · exact ih bd bc hs.of_cons d hdt heq hbc

theorem presentAt_iff (df : List Row) (d : Int) (s : Sig) :
    presentAt df d s = true ↔
      s ∈ (df.filter (fun r => decide (r.period_end_date = d))).map sigOf := by
  unfold presentAt
  simp only [List.any_eq_true, List.mem_map, List.mem_filter, decide_eq_true_eq]
  constructor
  · rintro ⟨r, hr, hd, hs⟩
    exact ⟨r, ⟨hr, by simpa using hd⟩, hs⟩
  · rintro ⟨r, ⟨hr, hd⟩, hs⟩
    exact ⟨r, hr, by simpa using hd, hs⟩

theorem sigOf_mem_sigList {df : List Row} {r : Row} (h : r ∈ df) :
    sigOf r ∈ sigList df :=
  List.mem_dedup.mpr (List.mem_map_of_mem _ h)

theorem sigList_nodup (df : List Row) : (sigList df).Nodup := List.nodup_dedup _

theorem sigList_ne_nil {df : List Row} (h : df ≠ []) : sigList df ≠ [] := by
  cases df with
  | nil => exact absurd rfl h
  | cons r t => exact List.ne_nil_of_mem (sigOf_mem_sigList (List.mem_cons_self r t))

theorem length_eq_of_nodup_mem_iff {α : Type} {l m : List α}
    (hl : l.Nodup) (hm : m.Nodup) (h : ∀ x, x ∈ l ↔ x ∈ m) :
    l.length = m.length :=
  ((List.perm_ext_iff_of_nodup hl hm).mpr h).length_eq

theorem length_le_of_nodup_subset {α : Type} [DecidableEq α] {l m : List α}
    (hl : l.Nodup) (hm : m.Nodup) (h : ∀ x ∈ l, x ∈ m) : l.length ≤ m.length := by
  have hc : l.toFinset ⊆ m.toFinset := by
    intro x hx
    rw [List.mem_toFinset] at hx ⊢
    exact h x hx
  have := Finset.card_le_card hc
  rwa [List.toFinset_card_of_nodup hl, List.toFinset_card_of_nodup hm] at this

theorem nodup_sigs_at (df : List Row) (hu : UniqueSigDates df) (d : Int) :
    ((df.filter (fun r => decide (r.period_end_date = d))).map sigOf).Nodup := by
  have hsub : ((df.filter (fun r => decide (r.period_end_date = d))).map
      (fun r => (sigOf r, r.period_end_date))).Nodup :=
    hu.sublist (List.Sublist.map _ (List.filter_sublist df))
  have h2 : (((df.filter (fun r => decide (r.period_end_date = d))).map
      (fun r => (sigOf r, r.period_end_date))).map Prod.fst).Nodup := by
    refine List.Nodup.map_on ?_ hsub
    rintro ⟨s1, d1⟩ hx ⟨s2, d2⟩ hy hxy
    obtain ⟨r1, hr1, he1⟩ := List.mem_map.mp hx
    obtain ⟨r2, hr2, he2⟩ := List.mem_map.mp hy
    have hd1 : d1 = d := by
      have := List.of_mem_filter hr1
      cases he1
      simpa using this
    have hd2 : d2 = d := by
      have := List.of_mem_filter hr2
      cases he2
      simpa using this
    simp only [Prod.fst] at hxy
    rw [Prod.ext_iff]
    exact ⟨hxy, hd1.trans hd2.symm⟩
  simpa [List.map_map, Function.comp] using h2

theorem countRowsAt_eq_length_sigs_at (df : List Row) (d : Int) :
    countRowsAt df d =
      ((df.filter (fun r => decide (r.period_end_date = d))).map sigOf).length := by
  unfold countRowsAt
  rw [List.length_map]

theorem countRowsAt_le (df : List Row) (hu : UniqueSigDates df) (d : Int) :
    countRowsAt df d ≤ (sigList df).length := by
  rw [countRowsAt_eq_length_sigs_at]
  refine length_le_of_nodup_subset (nodup_sigs_at df hu d) (sigList_nodup df) ?_
  intro s hs
  obtain ⟨r, hr, rfl⟩ := List.mem_map.mp hs
  exact sigOf_mem_sigList (List.mem_of_mem_filter hr)

theorem countRowsAt_eq_iff (df : List Row) (hu : UniqueSigDates df) (d : Int) :
    countRowsAt df d = (sigList df).length ↔ allSigsPresentAt df d := by
  constructor
  · intro h s hs
    have hnd := nodup_sigs_at df hu d
    have hsub : ((df.filter (fun r => decide (r.period_end_date = d))).map
        sigOf).toFinset ⊆ (sigList df).toFinset := by
      intro x hx
      rw [List.mem_toFinset] at hx ⊢
      obtain ⟨r, hr, rfl⟩ := List.mem_map.mp hx
      exact sigOf_mem_sigList (List.mem_of_mem_filter hr)
    have hcard : (sigList df).toFinset.card ≤
        ((df.filter (fun r => decide (r.period_end_date = d))).map
          sigOf).toFinset.card := by
      rw [List.toFinset_card_of_nodup hnd, List.toFinset_card_of_nodup (sigList_nodup df),
        ← countRowsAt_eq_length_sigs_at, h]
    have heq := Finset.eq_of_subset_of_card_le hsub hcard
    rw [presentAt_iff, ← List.mem_toFinset, heq, List.mem_toFinset]
    exact hs
  · intro h
    rw [countRowsAt_eq_length_sigs_at]
    refine length_eq_of_nodup_mem_iff (nodup_sigs_at df hu d) (sigList_nodup df) ?_
    intro s
    constructor
    · intro hs
      obtain ⟨r, hr, rfl⟩ := List.mem_map.mp hs
      exact sigOf_mem_sigList (List.mem_of_mem_filter hr)
    · intro hs
      exact (presentAt_iff df d s).mp (h s hs)

theorem mem_dateList {df : List Row} {d : Int} :
    d ∈ dateList df ↔ d ∈ df.map Row.period_end_date := by
  unfold dateList
  rw [List.mem_insertionSort]
  exact List.mem_dedup

theorem dateList_sorted (df : List Row) :
    List.Pairwise (fun a b : Int => a ≤ b) (dateList df) :=
  List.sorted_insertionSort _ _

theorem dateList_nodup (df : List Row) : (dateList df).Nodup :=
  (List.perm_insertionSort _ _).nodup_iff.mpr (List.nodup_dedup _)

theorem countRowsAt_pos {df : List Row} {d : Int} (h : d ∈ dateList df) :
    0 < countRowsAt df d := by
  rw [mem_dateList] at h
  obtain ⟨r, hr, rfl⟩ := List.mem_map.mp h
  have hm : r ∈ df.filter (fun x => decide (x.period_end_date = r.period_end_date)) :=
    List.mem_filter.mpr ⟨hr, by simp⟩
  exact List.length_pos.mpr (List.ne_nil_of_mem hm)

theorem dateList_ne_nil {df : List Row} (h : df ≠ []) : dateList df ≠ [] := by
  cases df with
  | nil => exact absurd rfl h
  | cons r t =>
    exact List.ne_nil_of_mem (mem_dateList.mpr (List.mem_map_of_mem _ (List.mem_cons_self r t)))

/-- Claim C4: for every non-empty input satisfying the data-model uniqueness
precondition, whenever some period_end_date has all N signatures present,
step 1 returns the earliest such date with reported coverage 100.0 and no
earlier date has full coverage; when no such date exists and fallback is
enabled, it returns the date with the maximum signature count (ties broken by
the first such date in ascending date order) with reported coverage
(signatures-on-date / N) * 100 strictly below 100.  Under the uniqueness
precondition the signature count of a date equals its record count, which is
what the source counts. -/
theorem c4_find_first_date (df : List Row) (hne : df ≠ []) (hu : UniqueSigDates df) :
    (∀ fb : Bool, (∃ d ∈ dateList df, allSigsPresentAt df d) →
      ∃ d0, find_first_complete_coverage_date df fb = (some d0, 100) ∧
        d0 ∈ dateList df ∧ allSigsPresentAt df d0 ∧
        ∀ d ∈ dateList df, d < d0 → ¬ allSigsPresentAt df d) ∧
    ((∀ d ∈ dateList df, ¬ allSigsPresentAt df d) →
      ∃ d0, find_first_complete_coverage_date df true =
          (some d0, ((countRowsAt df d0 : ℚ) / (((sigList df).length : ℚ))) * 100) ∧
        d0 ∈ dateList df ∧
        (∀ d ∈ dateList df, countRowsAt df d ≤ countRowsAt df d0) ∧
        (∀ d ∈ dateList df, countRowsAt df d = countRowsAt df d0 → d0 ≤ d) ∧
        ((countRowsAt df d0 : ℚ) / (((sigList df).length : ℚ))) * 100 < 100) := by
  have hsig := sigList_ne_nil hne
  constructor
  · rintro fb ⟨d, hd, hp⟩
    have hpd : decide (countRowsAt df d = (sigList df).length) = true :=
      decide_eq_true ((countRowsAt_eq_iff df hu d).mpr hp)
    obtain ⟨d0, hfind⟩ :=
      find_some_of_exists (p := fun e => decide (countRowsAt df e = (sigList df).length))
        ⟨d, hd, hpd⟩
    obtain ⟨hp0, hmem0, hmin0⟩ := find_first_of_sorted (dateList_sorted df) hfind
    refine ⟨d0, ?_, hmem0, (countRowsAt_eq_iff df hu d0).mp (by simpa using hp0), ?_⟩
    · unfold find_first_complete_coverage_date
      rw [if_neg hne, if_neg hsig, hfind]
    · intro e he hlt hall
      have hpe : decide (countRowsAt df e = (sigList df).length) = true :=
        decide_eq_true ((countRowsAt_eq_iff df hu e).mpr hall)
      rw [hmin0 e he hlt] at hpe
      exact Bool.noConfusion hpe
  · intro hnone
    have hfn : (dateList df).find?
        (fun e => decide (countRowsAt df e = (sigList df).length)) = none := by
      rw [List.find?_eq_none]
      intro x hx hpx
      exact hnone x hx ((countRowsAt_eq_iff df hu x).mp (by simpa using hpx))
    rcases bestFold_cases df (dateList df) none 0 with hc | ⟨b, hb, hc, _⟩
    · exfalso
      obtain ⟨d1, hd1⟩ : ∃ d1, d1 ∈ dateList df := by
        cases h : dateList df with
        | nil => exact absurd h (dateList_ne_nil hne)
        | cons a t => exact ⟨a, h ▸ List.mem_cons_self a t⟩
      have h1 := (bestFold_le df (dateList df) none 0).2 d1 hd1
      rw [hc] at h1
      exact absurd (countRowsAt_pos hd1) (by omega)
    · have hmax : ∀ d ∈ dateList df, countRowsAt df d ≤ countRowsAt df b := by
        intro d hd
        have h1 := (bestFold_le df (dateList df) none 0).2 d hd
        rw [hc] at h1
        exact h1
      have hcov : ((countRowsAt df b : ℚ) / (((sigList df).length : ℚ))) * 100 < 100 := by
        have hne2 : countRowsAt df b ≠ (sigList df).length := by
          intro h
          exact (List.find?_eq_none.mp hfn b hb) (decide_eq_true h)
        have hlt : countRowsAt df b < (sigList df).length :=
          lt_of_le_of_ne (countRowsAt_le df hu b) hne2
        have hN : (0 : ℚ) < ((sigList df).length : ℚ) := by
          exact_mod_cast List.length_pos.mpr hsig
        have h1 : ((countRowsAt df b : ℚ) / (((sigList df).length : ℚ))) < 1 :=
          (div_lt_one hN).mpr (by exact_mod_cast hlt)
        calc ((countRowsAt df b : ℚ) / (((sigList df).length : ℚ))) * 100
            < 1 * 100 := by
              exact mul_lt_mul_of_pos_right h1 (by norm_num)
          _ = 100 := one_mul _
      refine ⟨b, ?_, hb, hmax, ?_, hcov⟩
      · unfold find_first_complete_coverage_date
        rw [if_neg hne, if_neg hsig, hfn, if_pos rfl, hc]
      · intro d hd heq
        obtain ⟨b', hb'1, hb'2⟩ :=
          bestFold_first df (dateList df) none 0 (dateList_sorted df) d hd
            (by rw [hc]; exact heq) (countRowsAt_pos hd)
        rw [hc] at hb'1
        have hbb : b = b' := Option.some.inj hb'1
        rw [hbb]
        exact hb'2

/-- Witness for c4_find_first_date: its statement instantiated at the
Scenario A dataset. -/
theorem c4_find_first_date_witness :
    (∀ fb : Bool, (∃ d ∈ dateList dfScenarioA, allSigsPresentAt dfScenarioA d) →
      ∃ d0, find_first_complete_coverage_date dfScenarioA fb = (some d0, 100) ∧
        d0 ∈ dateList dfScenarioA ∧ allSigsPresentAt dfScenarioA d0 ∧
        ∀ d ∈ dateList dfScenarioA, d < d0 → ¬ allSigsPresentAt dfScenarioA d) ∧
    ((∀ d ∈ dateList dfScenarioA, ¬ allSigsPresentAt dfScenarioA d) →
      ∃ d0, find_first_complete_coverage_date dfScenarioA true =
          (some d0,
            ((countRowsAt dfScenarioA d0 : ℚ) /
              (((sigList dfScenarioA).length : ℚ))) * 100) ∧
        d0 ∈ dateList dfScenarioA ∧
        (∀ d ∈ dateList dfScenarioA,
          countRowsAt dfScenarioA d ≤ countRowsAt dfScenarioA d0) ∧
        (∀ d ∈ dateList dfScenarioA,
          countRowsAt dfScenarioA d = countRowsAt dfScenarioA d0 → d0 ≤ d) ∧
        ((countRowsAt dfScenarioA d0 : ℚ) /
          (((sigList dfScenarioA).length : ℚ))) * 100 < 100) :=
  c4_find_first_date dfScenarioA (by decide) (by decide)

/-- Claim C5: for the same input, fallback never yields a smaller achieved
coverage percentage (step 1's reported figure) or a smaller aligned record
count than no-fallback, and when no date has 100% signature coverage the
no-fallback alignment is empty.  Uses the data-model uniqueness precondition
to translate full signature coverage into the source's record-count test. -/
theorem c5_fallback_monotonicity (now : String) (df : List Row)
    (hu : UniqueSigDates df) :
    (find_first_complete_coverage_date df false).2 ≤
      (find_first_complete_coverage_date df true).2 ∧
    (align_complete now df false).length ≤ (align_complete now df true).length ∧
    ((∀ d ∈ dateList df, ¬ allSigsPresentAt df d) →
      align_complete now df false = []) := by
  by_cases hne : df = []
  · subst hne
    exact ⟨le_refl _, le_refl _, fun _ => rfl⟩
  · have hsig := sigList_ne_nil hne
    cases hfind : (dateList df).find?
        (fun e => decide (countRowsAt df e = (sigList df).length)) with
    | some d =>
      have hf : ∀ fb, find_first_complete_coverage_date df fb = (some d, 100) := by
        intro fb
        unfold find_first_complete_coverage_date
        rw [if_neg hne, if_neg hsig, hfind]
      have ha : align_complete now df false = align_complete now df true := by
        simp only [align_complete, hf]
      refine ⟨?_, ?_, ?_⟩
      · rw [hf false, hf true]
      · rw [ha]
      · intro hnone
        obtain ⟨hp0, hmem0, _⟩ := find_first_of_sorted (dateList_sorted df) hfind
        exact absurd ((countRowsAt_eq_iff df hu d).mp (by simpa using hp0))
          (hnone d hmem0)
    | none =>
      have hfalse : find_first_complete_coverage_date df false = (none, 0) := by
        unfold find_first_complete_coverage_date
        rw [if_neg hne, if_neg hsig, hfind]
        rfl
      have halign : align_complete now df false = [] := by
        unfold align_complete
        rw [if_neg hne, hfalse]
      refine ⟨?_, ?_, fun _ => halign⟩
      · rw [hfalse]
        unfold find_first_complete_coverage_date
        rw [if_neg hne, if_neg hsig, hfind, if_pos rfl]
        rcases hc : bestCoverageFold df (dateList df) (none, 0) with ⟨bd, bc⟩
        cases bd with
        | none => simp
        | some b =>
          have h0 : (0 : ℚ) ≤ ((bc : ℚ) / (((sigList df).length : ℚ))) * 100 := by
            positivity
          simpa using h0
      · rw [halign]
        exact Nat.zero_le _

/-- Witness for c5_fallback_monotonicity: its statement instantiated at the
two-signature disjoint-dates dataset (where no date has full coverage). -/
theorem c5_fallback_monotonicity_witness :
    (find_first_complete_coverage_date dfDisjoint false).2 ≤
      (find_first_complete_coverage_date dfDisjoint true).2 ∧
    (align_complete "now" dfDisjoint false).length ≤
      (align_complete "now" dfDisjoint true).length ∧
    ((∀ d ∈ dateList dfDisjoint, ¬ allSigsPresentAt dfDisjoint d) →
      align_complete "now" dfDisjoint false = []) :=
  c5_fallback_monotonicity "now" dfDisjoint (by decide)

theorem filter_eq_singleton_of_nodup {l : List Int} (hl : l.Nodup) {d : Int}
    (hd : d ∈ l) : l.filter (fun x => decide (x = d)) = [d] := by
  induction l with
  | nil => simp at hd
  | cons a t ih =>
    rcases List.mem_cons.mp hd with rfl | hdt
    · have hnot : ∀ x ∈ t, ¬(decide (x = d) = true) := by
        intro x hx hxd
        rw [decide_eq_true_eq] at hxd
        exact (List.nodup_cons.mp hl).1 (hxd ▸ hx)
      rw [List.filter_cons_of_pos (by simp)]
      rw [List.filter_eq_nil_iff.mpr hnot]
    · have hne : a ≠ d := by
        intro h
        exact (List.nodup_cons.mp hl).1 (h ▸ hdt)
      rw [List.filter_cons_of_neg (by simpa using hne)]
      exact ih (List.nodup_cons.mp hl).2 hdt

/-- Claim C8 (amended): for every input and every period_end_date in it, the
aggregated table has exactly one row for that date, carrying the exact sum of
holofoil_price and the exact sum of holofoil_price * volume over the records
of that date; rows are sorted ascending by period_end_date; and Scenario C's
three records yield aggregate_price 451.25 and aggregate_value 2954.75. -/
theorem c8_sum_aggregation :
    (∀ (df : List Row) (name : Option String) (d : Int),
      d ∈ df.map Row.period_end_date →
        (aggregate_time_series df name).rows.filter (fun x => decide (x.2.1 = d)) =
          [((if nameTruthy name then name else none), d, sumPriceAt df d,
            sumValueAt df d)]) ∧
    (∀ (df : List Row) (name : Option String),
      List.Pairwise (fun x y => x.2.1 ≤ y.2.1) (aggregate_time_series df name).rows) ∧
    (aggregate_time_series dfScenarioC none).rows =
      [(none, day20250103, 451.25, 2954.75)] := by
  have hrows : ∀ (df : List Row) (name : Option String), df ≠ [] →
      (aggregate_time_series df name).rows =
        (dateList df).map (fun e =>
          ((if nameTruthy name then name else none), e, sumPriceAt df e,
            sumValueAt df e)) := by
    intro df name hne
    unfold aggregate_time_series
    rw [if_neg hne]
  refine ⟨?_, ?_, ?_⟩
  · intro df name d hd
    have hne : df ≠ [] := by
      intro h
      subst h
      simp at hd
    rw [hrows df name hne, List.filter_map]
    have hcomp : ((fun x : Option String × Int × ℚ × ℚ => decide (x.2.1 = d)) ∘
        (fun e => ((if nameTruthy name then name else none), e, sumPriceAt df e,
          sumValueAt df e))) = fun e => decide (e = d) := rfl
    rw [hcomp, filter_eq_singleton_of_nodup (dateList_nodup df) (mem_dateList.mpr hd)]
    rfl
  · intro df name
    by_cases hne : df = []
    · subst hne
      exact List.Pairwise.nil
    · rw [hrows df name hne]
      exact List.Pairwise.map _ (fun a b hab => hab) (dateList_sorted df)
  · have h : (aggregate_time_series dfScenarioC none).rows =
        [(none, day20250103, sumPriceAt dfScenarioC day20250103,
          sumValueAt dfScenarioC day20250103)] := rfl
    have hp : sumPriceAt dfScenarioC day20250103 =
        (100.50 : ℚ) + (200.00 + (150.75 + 0)) := rfl
    have hv : sumValueAt dfScenarioC day20250103 =
        (100.50 : ℚ) * ((5 : Int) : ℚ) +
          ((200.00 : ℚ) * ((10 : Int) : ℚ) + ((150.75 : ℚ) * ((3 : Int) : ℚ) + 0)) := rfl
    rw [h, hp, hv]
    norm_num

/-- Witness for c8_sum_aggregation: its per-date clause instantiated at the
Scenario C dataset and date 2025-01-03. -/
theorem c8_sum_aggregation_witness :
    (aggregate_time_series dfScenarioC none).rows.filter
        (fun x => decide (x.2.1 = day20250103)) =
      [((if nameTruthy none then none else none), day20250103,
        sumPriceAt dfScenarioC day20250103, sumValueAt dfScenarioC day20250103)] :=
  c8_sum_aggregation.1 dfScenarioC none day20250103 (by decide)

/-- Claim C7 (amended): step 2 either synthesizes nothing and returns exactly
the real records from the start date forward in their original order, or it
synthesizes at least one record and returns a permutation of (real records
from the start date forward ++ synthesized records) sorted ascending by the
(period_end_date, set, name) key. -/
theorem c7_fill_gaps_sorted (now : String) (df : List Row) (start : Int) :
    (gapFillsOf now df start = [] →
      fill_signature_gaps now df start =
        df.filter (fun r => decide (start ≤ r.period_end_date))) ∧
    (gapFillsOf now df start ≠ [] →
      (fill_signature_gaps now df start).Perm
        (df.filter (fun r => decide (start ≤ r.period_end_date)) ++
          gapFillsOf now df start) ∧
      List.Pairwise rowKeyLe (fill_signature_gaps now df start)) := by
  constructor
  · intro h
    unfold fill_signature_gaps
    by_cases hne : df = []
    · subst hne
      rw [if_pos rfl]
      rfl
    · rw [if_neg hne, if_pos h]
  · intro h
    have hne : df ≠ [] := by
      intro heq
      subst heq
      exact h rfl
    unfold fill_signature_gaps
    rw [if_neg hne, if_neg h]
    exact ⟨List.perm_insertionSort _ _, List.sorted_insertionSort _ _⟩

/-- Witness for c7_fill_gaps_sorted: at dfOneGap one record is synthesized
and the step-2 result is sorted by the (period_end_date, set, name) key. -/
theorem c7_fill_gaps_sorted_witness :
    List.Pairwise rowKeyLe (fill_signature_gaps "t" dfOneGap day20250103) :=
  ((c7_fill_gaps_sorted "t" dfOneGap day20250103).2 (by decide)).2

/-- Claim C3 (amended): whenever the filtered dataset aligns to a non-empty
result, analyze_filter_combination reports gap_fills_required equal to the
theoretical complete record count (number of distinct aligned signatures
times number of distinct aligned dates) minus the record count AFTER gap
filling, clamped at zero. -/
theorem c3_gap_fills_required (now : String) (df : List Row)
    (sets types period : String) (fb : Bool)
    (h : (analyze_filter_combination now df sets types period fb).records_aligned ≠ 0) :
    (analyze_filter_combination now df sets types period fb).gap_fills_required =
      max 0
        ((((align_complete now (apply_filters df sets types period) fb).map
            sigStr).toFinset.card : Int) *
          (((align_complete now (apply_filters df sets types period) fb).map
            Row.period_end_date).toFinset.card : Int) -
          ((align_complete now (apply_filters df sets types period) fb).length : Int)) := by
  unfold analyze_filter_combination at h ⊢
  by_cases h1 : expand_pattern sets VALID_SETS = [] ∨ expand_pattern types VALID_TYPES = []
  · rw [if_pos h1] at h
    exact absurd rfl h
  · rw [if_neg h1] at h ⊢
    by_cases h2 : df = []
    · rw [if_pos h2] at h
      exact absurd rfl h
    · rw [if_neg h2] at h ⊢
      by_cases h3 : apply_filters df sets types period = []
      · rw [if_pos h3] at h
        exact absurd rfl h
      · rw [if_neg h3] at h ⊢
        unfold extract_alignment_metrics at h ⊢
        by_cases h4 : align_complete now (apply_filters df sets types period) fb = []
        · rw [if_pos h4] at h
          exact absurd rfl h
        · rw [if_neg h4]
          show max 0 _ = max 0 _
          congr 1

/-- Witness for c3_gap_fills_required: instantiated at the one-gap dataset
with fallback disabled. -/
theorem c3_gap_fills_required_witness :
    (analyze_filter_combination "now" dfOneGap "*" "*" "3M" false).gap_fills_required =
      max 0
        ((((align_complete "now" (apply_filters dfOneGap "*" "*" "3M") false).map
            sigStr).toFinset.card : Int) *
          (((align_complete "now" (apply_filters dfOneGap "*" "*" "3M") false).map
            Row.period_end_date).toFinset.card : Int) -
          ((align_complete "now" (apply_filters dfOneGap "*" "*" "3M") false).length : Int)) :=
  c3_gap_fills_required "now" dfOneGap "*" "*" "3M" false (by decide)

theorem sorted_min_head {l : List Int} (hs : List.Pairwise (fun a b : Int => a ≤ b) l)
    (hn : l.Nodup) {a : Int} (ha : a ∈ l) (hmin : ∀ x ∈ l, a ≤ x) :
    l = a :: l.tail ∧ a ∉ l.tail := by
  cases l with
  | nil => simp at ha
  | cons b t =>
    rcases List.mem_cons.mp ha with rfl | hat
    · exact ⟨rfl, (List.nodup_cons.mp hn).1⟩
    · have h1 : b ≤ a := List.rel_of_pairwise_cons hs hat
      have h2 : a ≤ b := hmin b (List.mem_cons_self b t)
      have hab : a = b := le_antisymm h2 h1
      subst hab
      exact absurd hat (List.nodup_cons.mp hn).1

theorem presentCount_eq_countRowsAt (df : List Row) (hu : UniqueSigDates df) (d : Int) :
    ((sigList df).filter (fun s => presentAt df d s)).length = countRowsAt df d := by
  rw [countRowsAt_eq_length_sigs_at]
  refine length_eq_of_nodup_mem_iff ((sigList_nodup df).filter _)
    (nodup_sigs_at df hu d) ?_
  intro s
  rw [List.mem_filter]
  constructor
  · rintro ⟨_, hp⟩
    exact (presentAt_iff df d s).mp hp
  · intro hs
    refine ⟨?_, (presentAt_iff df d s).mpr hs⟩
    obtain ⟨r, hr, rfl⟩ := List.mem_map.mp hs
    exact sigOf_mem_sigList (List.mem_of_mem_filter hr)

theorem updateLatest_isSome (df : List Row) (d : Int) (latest : Sig → Option Row)
    (s : Sig) (h : (latest s).isSome) : (updateLatest df d latest s).isSome := by
  unfold updateLatest
  cases hl : lastRowAt df d s with
  | some r => rfl
  | none => exact h

theorem filter_mem_cons_length (l : List Row) (d : Int) (ds : List Int)
    (hnd : d ∉ ds) :
    (l.filter (fun r => decide (r.period_end_date ∈ d :: ds))).length =
      countRowsAt l d + (l.filter (fun r => decide (r.period_end_date ∈ ds))).length := by
  induction l with
  | nil => rfl
  | cons r t ih =>
    unfold countRowsAt at ih ⊢
    simp only [List.filter_cons]
    by_cases h1 : r.period_end_date = d
    · rw [if_pos (by simp [h1]), if_pos (by simp [h1]),
        if_neg (by simp only [decide_eq_true_eq]; rw [h1]; exact hnd)]
      simp only [List.length_cons]
      omega
    · by_cases h2 : r.period_end_date ∈ ds
      · rw [if_pos (by simp [h2]), if_neg (by simpa using h1), if_pos (by simp [h2])]
        simp only [List.length_cons]
        omega
      · rw [if_neg (by simp [h1, h2]), if_neg (by simpa using h1),
          if_neg (by simpa using h2)]
        exact ih

theorem fillLoop_length (df : List Row) (now : String) (hu : UniqueSigDates df) :
    ∀ (ds : List Int) (latest : Sig → Option Row),
      ds.Nodup →
      (∀ s ∈ sigList df, (latest s).isSome) →
      (fillLoop df (sigList df) now ds latest).length +
        (df.filter (fun r => decide (r.period_end_date ∈ ds))).length =
        (sigList df).length * ds.length := by
  intro ds
  induction ds with
  | nil =>
    intro latest _ _
    simp [fillLoop]
  | cons d ds' ih =>
    intro latest hnd hinv
    have hnews : (((sigList df).filter (fun s => ! presentAt df d s)).filterMap
        (fun s => (latest s).map (gapFillRecord now d))).length =
        ((sigList df).filter (fun s => ! presentAt df d s)).length := by
      rw [List.filterMap_length_eq_length]
      intro s hs
      have h := hinv s (List.mem_of_mem_filter hs)
      cases hl : latest s with
      | none => rw [hl] at h; exact absurd h (by simp)
      | some r => simp
    have hpart := List.length_eq_length_filter_add
      (l := sigList df) (fun s => presentAt df d s)
    have hpres := presentCount_eq_countRowsAt df hu d
    have hfsplit := filter_mem_cons_length df d ds' (List.nodup_cons.mp hnd).1
    have hIH := ih (updateLatest df d latest) (List.nodup_cons.mp hnd).2
      (fun s hs => updateLatest_isSome df d latest s (hinv s hs))
    simp only [fillLoop, List.length_append, List.length_cons]
    rw [hnews, hfsplit, Nat.mul_succ]
    omega

theorem fillLoop_mem (df : List Row) (sigs : List Sig) (now : String) :
    ∀ (ds : List Int) (latest : Sig → Option Row),
      (∀ s r, latest s = some r → r ∈ df) →
      ∀ x ∈ fillLoop df sigs now ds latest,
        (∃ r ∈ df, sigOf x = sigOf r) ∧ x.period_end_date ∈ ds := by
  intro ds
  induction ds with
  | nil =>
    intro latest _ x hx
    simp [fillLoop] at hx
  | cons d ds' ih =>
    intro latest hinv x hx
    simp only [fillLoop] at hx
    rcases List.mem_append.mp hx with hx | hx
    · obtain ⟨s, hs, hmap⟩ := List.mem_filterMap.mp hx
      cases hl : latest s with
      | none =>
        rw [hl] at hmap
        exact absurd hmap (by simp)
      | some r =>
        rw [hl] at hmap
        have hx2 : gapFillRecord now d r = x := by
          simpa using hmap
        subst hx2
        exact ⟨⟨r, hinv s r hl, rfl⟩, List.mem_cons_self _ _⟩
    · have hinv' : ∀ s r, updateLatest df d latest s = some r → r ∈ df := by
        intro s r h
        unfold updateLatest at h
        cases hl : lastRowAt df d s with
        | some r0 =>
          rw [hl] at h
          obtain rfl := Option.some.inj h
          unfold lastRowAt at hl
          exact List.mem_of_mem_filter (List.mem_of_getLast?_eq_some hl)
        | none =>
          rw [hl] at h
          exact hinv s r h
      obtain ⟨h1, h2⟩ := ih (updateLatest df d latest) hinv' x hx
      exact ⟨h1, List.mem_cons_of_mem _ h2⟩

theorem fill_gaps_rectangular (now : String) (df : List Row) (d0 : Int)
    (hu : UniqueSigDates df)
    (hmem : d0 ∈ dateList df)
    (hge : ∀ r ∈ df, d0 ≤ r.period_end_date)
    (hall : allSigsPresentAt df d0) :
    (fill_signature_gaps now df d0).length =
      (((fill_signature_gaps now df d0).map sigOf).dedup).length *
        (((fill_signature_gaps now df d0).map Row.period_end_date).dedup).length := by
  have hne : df ≠ [] := by
    intro h
    subst h
    rw [mem_dateList] at hmem
    simp at hmem
  have hdge : ∀ x ∈ dateList df, d0 ≤ x := by
    intro x hx
    rw [mem_dateList] at hx
    obtain ⟨r, hr, rfl⟩ := List.mem_map.mp hx
    exact hge r hr
  have hfilter_dates : (dateList df).filter (fun x => decide (d0 ≤ x)) = dateList df :=
    List.filter_eq_self.mpr (fun x hx => by simpa using hdge x hx)
  obtain ⟨hhead, hnotin⟩ :=
    sorted_min_head (dateList_sorted df) (dateList_nodup df) hmem hdge
  have htail_nodup : (dateList df).tail.Nodup := by
    have h := dateList_nodup df
    rw [hhead] at h
    exact (List.nodup_cons.mp h).2
  have htail_sub : ∀ x ∈ (dateList df).tail, x ∈ dateList df := by
    intro x hx
    rw [hhead]
    exact List.mem_cons_of_mem _ hx
  have hfrows : df.filter (fun r => decide (d0 ≤ r.period_end_date)) = df :=
    List.filter_eq_self.mpr (fun r hr => by simpa using hge r hr)
  have hgap : gapFillsOf now df d0 =
      fillLoop df (sigList df) now (dateList df).tail
        (updateLatest df d0 (fun _ => none)) := by
    unfold gapFillsOf
    rw [hfilter_dates, List.drop_one]
  have hinv0 : ∀ s ∈ sigList df, ((updateLatest df d0 (fun _ => none)) s).isSome := by
    intro s hs
    have hp := hall s hs
    rw [presentAt_iff] at hp
    obtain ⟨r, hr, hsr⟩ := List.mem_map.mp hp
    have hrm : r ∈ df.filter (fun x => decide (x.period_end_date = d0 ∧ sigOf x = s)) := by
      rw [List.mem_filter]
      obtain ⟨hrdf, hrd⟩ := List.mem_filter.mp hr
      refine ⟨hrdf, ?_⟩
      simp only [decide_eq_true_eq] at hrd ⊢
      exact ⟨hrd, hsr⟩
    have hne2 : df.filter (fun x => decide (x.period_end_date = d0 ∧ sigOf x = s)) ≠ [] :=
      List.ne_nil_of_mem hrm
    unfold updateLatest lastRowAt
    cases hg : (df.filter
        (fun x => decide (x.period_end_date = d0 ∧ sigOf x = s))).getLast? with
    | some r0 => rfl
    | none => exact absurd (List.getLast?_isSome.mpr hne2) (by rw [hg]; simp)
  have hflen := fillLoop_length df now hu (dateList df).tail
    (updateLatest df d0 (fun _ => none)) htail_nodup hinv0
  have hcount0 : countRowsAt df d0 = (sigList df).length :=
    (countRowsAt_eq_iff df hu d0).mpr hall
  have hfull : df.filter (fun r => decide (r.period_end_date ∈ dateList df)) = df :=
    List.filter_eq_self.mpr (fun r hr => by
      simp only [decide_eq_true_eq]
      exact mem_dateList.mpr (List.mem_map_of_mem _ hr))
  have hsplit : df.length =
      countRowsAt df d0 +
        (df.filter (fun r => decide (r.period_end_date ∈ (dateList df).tail))).length := by
    conv_lhs => rw [← hfull, hhead]
    exact filter_mem_cons_length df d0 (dateList df).tail hnotin
  have hdlen : (dateList df).length = (dateList df).tail.length + 1 := by
    rw [hhead]
    rfl
  have hout : fill_signature_gaps now df d0 =
      (if gapFillsOf now df d0 = [] then df
       else (df ++ gapFillsOf now df d0).insertionSort rowKeyLe) := by
    unfold fill_signature_gaps
    rw [if_neg hne, hfrows]
  have hmeminv : ∀ s r, (fun _ : Sig => (none : Option Row)) s = some r → r ∈ df := by
    intro s r h
    exact absurd h (by simp)
  have hmeminv0 : ∀ s r, updateLatest df d0 (fun _ => none) s = some r → r ∈ df := by
    intro s r h
    unfold updateLatest at h
    cases hl : lastRowAt df d0 s with
    | some r0 =>
      rw [hl] at h
      obtain rfl := Option.some.inj h
      unfold lastRowAt at hl
      exact List.mem_of_mem_filter (List.mem_of_getLast?_eq_some hl)
    | none =>
      rw [hl] at h
      exact hmeminv s r h
  have hfmem := fillLoop_mem df (sigList df) now (dateList df).tail
    (updateLatest df d0 (fun _ => none)) hmeminv0
  -- membership of the output signatures and dates
  have hmemsig : ∀ x, x ∈ (fill_signature_gaps now df d0).map sigOf ↔
      x ∈ df.map sigOf := by
    intro x
    rw [hout]
    by_cases hfe : gapFillsOf now df d0 = []
    · rw [if_pos hfe]
    · rw [if_neg hfe]
      rw [((List.perm_insertionSort rowKeyLe _).map sigOf).mem_iff]
      rw [List.map_append, List.mem_append]
      constructor
      · rintro (hx | hx)
        · exact hx
        · obtain ⟨y, hy, rfl⟩ := List.mem_map.mp hx
          obtain ⟨⟨r, hr, hsr⟩, _⟩ := hfmem y (hgap ▸ hy)
          rw [hsr]
          exact List.mem_map_of_mem _ hr
      · exact fun hx => Or.inl hx
  have hmemdate : ∀ x, x ∈ (fill_signature_gaps now df d0).map Row.period_end_date ↔
      x ∈ df.map Row.period_end_date := by
    intro x
    rw [hout]
    by_cases hfe : gapFillsOf now df d0 = []
    · rw [if_pos hfe]
    · rw [if_neg hfe]
      rw [((List.perm_insertionSort rowKeyLe _).map Row.period_end_date).mem_iff]
      rw [List.map_append, List.mem_append]
      constructor
      · rintro (hx | hx)
        · exact hx
        · obtain ⟨y, hy, rfl⟩ := List.mem_map.mp hx
          obtain ⟨_, hdt⟩ := hfmem y (hgap ▸ hy)
          rw [← mem_dateList]
          exact htail_sub _ hdt
      · exact fun hx => Or.inl hx
  -- distinct counts of the output
  have hsigcount : (((fill_signature_gaps now df d0).map sigOf).dedup).length =
      (sigList df).length := by
    refine length_eq_of_nodup_mem_iff (List.nodup_dedup _) (sigList_nodup df) ?_
    intro x
    rw [List.mem_dedup]
    unfold sigList
    rw [List.mem_dedup]
    exact hmemsig x
  have hdatecount :
      (((fill_signature_gaps now df d0).map Row.period_end_date).dedup).length =
        (dateList df).length := by
    have h1 : (dateList df).length = ((df.map Row.period_end_date).dedup).length :=
      (List.perm_insertionSort _ _).length_eq
    rw [h1]
    refine length_eq_of_nodup_mem_iff (List.nodup_dedup _) (List.nodup_dedup _) ?_
    intro x
    rw [List.mem_dedup, List.mem_dedup]
    exact hmemdate x
  -- the length of the output
  have hlen : (fill_signature_gaps now df d0).length =
      (sigList df).length * (dateList df).length := by
    rw [hout]
    by_cases hfe : gapFillsOf now df d0 = []
    · rw [if_pos hfe]
      have h0 : (gapFillsOf now df d0).length = 0 := by rw [hfe]; rfl
      rw [hgap] at h0
      rw [hdlen, Nat.mul_succ]
      omega
    · rw [if_neg hfe]
      rw [List.length_insertionSort, List.length_append]
      have h0 : (gapFillsOf now df d0).length =
          (fillLoop df (sigList df) now (dateList df).tail
            (updateLatest df d0 (fun _ => none))).length := by rw [hgap]
      rw [hdlen, Nat.mul_succ]
      omega
  rw [hlen, hsigcount, hdatecount]

/-- Claim C1 (amended): for every input satisfying the uniqueness
precondition, whenever align_complete with fallback DISABLED returns a
non-empty dataset, the number of records equals (number of distinct
signatures in the output) times (number of distinct period_end_date values in
the output). -/
theorem c1_align_complete_rectangular (now : String) (df : List Row)
    (hu : UniqueSigDates df)
    (hne : align_complete now df false ≠ []) :
    (align_complete now df false).length =
      (((align_complete now df false).map sigOf).dedup).length *
        (((align_complete now df false).map Row.period_end_date).dedup).length := by
  by_cases hdf : df = []
  · subst hdf
    exact absurd rfl hne
  · have hsig := sigList_ne_nil hdf
    cases hfind : (dateList df).find?
        (fun e => decide (countRowsAt df e = (sigList df).length)) with
    | none =>
      exfalso
      apply hne
      have hfe : find_first_complete_coverage_date df false = (none, 0) := by
        unfold find_first_complete_coverage_date
        rw [if_neg hdf, if_neg hsig, hfind]
        rfl
      unfold align_complete
      rw [if_neg hdf, hfe]
    | some d0 =>
      have hfe : find_first_complete_coverage_date df false = (some d0, 100) := by
        unfold find_first_complete_coverage_date
        rw [if_neg hdf, if_neg hsig, hfind]
      have hout : align_complete now df false =
          fill_signature_gaps now
            (df.filter (fun r => decide (d0 ≤ r.period_end_date))) d0 := by
        unfold align_complete
        rw [if_neg hdf, hfe]
      obtain ⟨hp0, hmem0, _⟩ := find_first_of_sorted (dateList_sorted df) hfind
      have hcount0 : countRowsAt df d0 = (sigList df).length := by simpa using hp0
      have hall0 : allSigsPresentAt df d0 := (countRowsAt_eq_iff df hu d0).mp hcount0
      have hu' : UniqueSigDates
          (df.filter (fun r => decide (d0 ≤ r.period_end_date))) :=
        hu.sublist (List.Sublist.map _ (List.filter_sublist df))
      have hge' : ∀ r ∈ df.filter (fun r => decide (d0 ≤ r.period_end_date)),
          d0 ≤ r.period_end_date := by
        intro r hr
        have h := List.mem_filter.mp hr
        simpa using h.2
      have hexr : ∃ r ∈ df, r.period_end_date = d0 := by
        have hpos := countRowsAt_pos hmem0
        unfold countRowsAt at hpos
        obtain ⟨r, hr⟩ := List.exists_mem_of_length_pos hpos
        have h := List.mem_filter.mp hr
        exact ⟨r, h.1, by simpa using h.2⟩
      obtain ⟨r0, hr0df, hr0d⟩ := hexr
      have hr0f : r0 ∈ df.filter (fun r => decide (d0 ≤ r.period_end_date)) :=
        List.mem_filter.mpr ⟨hr0df, by simp [hr0d]⟩
      have hmem' : d0 ∈ dateList
          (df.filter (fun r => decide (d0 ≤ r.period_end_date))) := by
        rw [mem_dateList]
        have hm : r0.period_end_date ∈
            (df.filter (fun r => decide (d0 ≤ r.period_end_date))).map
              Row.period_end_date :=
          List.mem_map_of_mem _ hr0f
        rwa [hr0d] at hm
      have hall' : allSigsPresentAt
          (df.filter (fun r => decide (d0 ≤ r.period_end_date))) d0 := by
        intro s hs
        have hsdf : s ∈ sigList df := by
          unfold sigList at hs ⊢
          rw [List.mem_dedup] at hs ⊢
          obtain ⟨r, hr, rfl⟩ := List.mem_map.mp hs
          exact List.mem_map_of_mem _ (List.mem_of_mem_filter hr)
        have hp := hall0 s hsdf
        unfold presentAt at hp ⊢
        rw [List.any_eq_true] at hp ⊢
        obtain ⟨r, hr, hcond⟩ := hp
        refine ⟨r, ?_, hcond⟩
        rw [decide_eq_true_eq] at hcond
        exact List.mem_filter.mpr ⟨hr, by simp [hcond.1]⟩
      rw [hout]
      exact fill_gaps_rectangular now
        (df.filter (fun r => decide (d0 ≤ r.period_end_date))) d0 hu' hmem' hge' hall'

/-- Witness for c1_align_complete_rectangular: instantiated at the Scenario A
dataset, whose no-fallback alignment is non-empty. -/
theorem c1_align_complete_rectangular_witness :
    (align_complete "now" dfScenarioA false).length =
      (((align_complete "now" dfScenarioA false).map sigOf).dedup).length *
        (((align_complete "now" dfScenarioA false).map Row.period_end_date).dedup).length :=
  c1_align_complete_rectangular "now" dfScenarioA (by decide) (by decide)
